import Mathlib

/-!
Shallow embedding of `src/analyze_flight.py` (X-Plane flight-scenario
analyzer).  The parser layer is modelled exactly over `List Char` / `ℚ`
(Python's binary floats are idealised as exact rationals); the analysis
layer (Euler-to-quaternion conversion via scipy's
`Rotation.from_euler('xyz', ..., degrees=True).as_quat()` and the numpy
statistics) is modelled over `ℝ`.
-/

namespace XP

/-! ## Parser primitives (`read_xplane_data`, lines 11-24) -/

/-- The whitespace set of Python's `str.strip()`. -/
def pyIsSpace (c : Char) : Bool :=
  c == ' ' || c == '\t' || c == '\n' || c == '\r' || c == '\x0b' || c == '\x0c'

/-- Python `line.strip()`. -/
def pyStrip (l : List Char) : List Char :=
  ((l.dropWhile pyIsSpace).reverse.dropWhile pyIsSpace).reverse

/-- ASCII decimal digit test. -/
def isDigitB (c : Char) : Bool := 48 ≤ c.toNat && c.toNat ≤ 57

def digitVal (c : Char) : ℕ := c.toNat - 48

/-- Value of a most-significant-first digit string. -/
def digitsToNat (l : List Char) : ℕ := l.foldl (fun a c => 10 * a + digitVal c) 0

def digitChar (d : ℕ) : Char :=
  match d with
  | 0 => '0' | 1 => '1' | 2 => '2' | 3 => '3' | 4 => '4'
  | 5 => '5' | 6 => '6' | 7 => '7' | 8 => '8' | _ => '9'

/-- Decimal digits of `n`, least significant first. -/
def natToDigitsRev (n : ℕ) : List Char :=
  if h : n < 10 then [digitChar n]
  else digitChar (n % 10) :: natToDigitsRev (n / 10)
decreasing_by exact Nat.div_lt_self (by omega) (by norm_num)

/-- Decimal digits of `n`, most significant first. -/
def natToDigits (n : ℕ) : List Char := (natToDigitsRev n).reverse

/-- Python `str(m)` for an integer. -/
def intToChars (m : ℤ) : List Char :=
  if m < 0 then '-' :: natToDigits m.natAbs else natToDigits m.natAbs

/-- Python `line.split(sep)` for a single-character separator. -/
def splitOnChar (sep : Char) : List Char → List (List Char)
  | [] => [[]]
  | c :: rest =>
    let r := splitOnChar sep rest
    if c == sep then [] :: r
    else
      match r with
      | [] => [[c]]
      | f :: fs => (c :: f) :: fs

/-- `leadsWith pat l = true` iff `pat` starts `l`. -/
def leadsWith : List Char → List Char → Bool
  | [], _ => true
  | _ :: _, [] => false
  | a :: as, b :: bs => a == b && leadsWith as bs

/-- Python `pat in l` (substring containment). -/
def hasSubstr : List Char → List Char → Bool
  | pat, [] => pat.isEmpty
  | pat, c :: rest => leadsWith pat (c :: rest) || hasSubstr pat rest

def pitchToken : List Char := ['p', 'i', 't', 'c', 'h']

/-- Line filter of `read_xplane_data`:
`line.strip() and '|' in line and 'pitch' not in line`. -/
def isDataLineB (l : List Char) : Bool :=
  !(pyStrip l).isEmpty && l.any (· == '|') && !hasSubstr pitchToken l

/-- Optional leading sign; returns (isNegative, rest). -/
def parseSign (l : List Char) : Bool × List Char :=
  match l with
  | [] => (false, [])
  | c :: r => if c = '-' then (true, r) else if c = '+' then (false, r) else (false, c :: r)

def applySign (neg : Bool) (q : ℚ) : ℚ := if neg then -q else q

/-- Python `float(x)` on the decimal-literal subset
`[ws] [sign] digits [. digits] [(e|E) [sign] digits] [ws]`
(the `inf`/`nan`/underscore forms never occur in the telemetry files). -/
def parseFloat (raw : List Char) : Option ℚ :=
  let l0 := pyStrip raw
  let sr := parseSign l0
  let ip := sr.2.takeWhile isDigitB
  let r1 := sr.2.dropWhile isDigitB
  let fr : List Char × List Char :=
    match r1 with
    | [] => ([], [])
    | c :: t =>
      if c = '.' then (t.takeWhile isDigitB, t.dropWhile isDigitB) else ([], c :: t)
  if ip.isEmpty && fr.1.isEmpty then none
  else
    let mant : ℚ := (digitsToNat (ip ++ fr.1) : ℚ) / 10 ^ fr.1.length
    match fr.2 with
    | [] => some (applySign sr.1 mant)
    | c :: t =>
      if c == 'e' || c == 'E' then
        let es := parseSign t
        let ed := es.2.takeWhile isDigitB
        let r3 := es.2.dropWhile isDigitB
        if ed.isEmpty || !r3.isEmpty then none
        else
          let ex : ℤ := if es.1 then -(digitsToNat ed : ℤ) else (digitsToNat ed : ℤ)
          some (applySign sr.1 (mant * (10 : ℚ) ^ ex))
      else none

/-- Effectful map over `Option`, by structural recursion: the first
failure aborts, as a raised exception would. -/
def optMapM {α β : Type} (f : α → Option β) : List α → Option (List β)
  | [] => some []
  | x :: xs =>
    match f x with
    | none => none
    | some y =>
      match optMapM f xs with
      | none => none
      | some ys => some (y :: ys)

/-- `[float(x.strip()) for x in line.split('|') if x.strip()]`. -/
def parseLineVals (l : List Char) : Option (List ℚ) :=
  let fields := splitOnChar '|' l
  let kept := fields.filter (fun f => !(pyStrip f).isEmpty)
  optMapM parseFloat kept

/-- One telemetry record: the 9 fixed columns of the parsed table. -/
structure Sample where
  pitch : ℚ
  roll : ℚ
  heading_true : ℚ
  heading_mag : ℚ
  mag_var : ℚ
  mag_comp : ℚ
  P : ℚ
  Q : ℚ
  R : ℚ
  deriving DecidableEq

/-- `pd.DataFrame(data, columns=[9 names])` accepts exactly 9-value rows. -/
def toSample (vs : List ℚ) : Option Sample :=
  match vs with
  | [p, r, h, hm, mv, mc, vP, vQ, vR] => some ⟨p, r, h, hm, mv, mc, vP, vQ, vR⟩
  | _ => none

/-- `read_xplane_data`: filter data lines, strip, parse each into 9 floats.
`none` models the exceptions (ValueError / column-count mismatch) that the
orchestrator catches. -/
def readXplaneData (lines : List String) : Option (List Sample) := do
  let dataLines := (lines.filter (fun ln => isDataLineB ln.data)).map (fun ln => pyStrip ln.data)
  let rows ← optMapM parseLineVals dataLines
  optMapM toSample rows

/-! ## Analysis layer (`analyze_scenario`, lines 26-81), over `ℝ` -/

noncomputable section

/-- `self.sample_rate = 5.0` (line 8). -/
def sample_rate : ℝ := 5

/-- `np.arange(len(data)) / self.sample_rate` (line 75). -/
def timeAxis (n : ℕ) : List ℝ := (List.range n).map (fun (i : ℕ) => (i : ℝ) / sample_rate)

/-- Quaternion in mathematical (scalar-first) component order. -/
@[ext] structure Quat where
  w : ℝ
  x : ℝ
  y : ℝ
  z : ℝ

/-- Hamilton product. -/
def quatMul (a b : Quat) : Quat :=
  ⟨a.w * b.w - a.x * b.x - a.y * b.y - a.z * b.z,
   a.w * b.x + a.x * b.w + a.y * b.z - a.z * b.y,
   a.w * b.y - a.x * b.z + a.y * b.w + a.z * b.x,
   a.w * b.z + a.x * b.y - a.y * b.x + a.z * b.w⟩

def quatId : Quat := ⟨1, 0, 0, 0⟩

def quatNormSq (q : Quat) : ℝ := q.w ^ 2 + q.x ^ 2 + q.y ^ 2 + q.z ^ 2

def degToRad (d : ℝ) : ℝ := d * Real.pi / 180

/-- Rotation by `angleDeg` degrees about a single coordinate axis, as a
unit quaternion (scipy's elementary building block). -/
def elementaryQuat (ax : Char) (angleDeg : ℝ) : Quat :=
  let h := degToRad angleDeg / 2
  if ax = 'x' then ⟨Real.cos h, Real.sin h, 0, 0⟩
  else if ax = 'y' then ⟨Real.cos h, 0, Real.sin h, 0⟩
  else ⟨Real.cos h, 0, 0, Real.sin h⟩

/-- scipy `Rotation.from_euler` composition: for an intrinsic sequence the
next elementary rotation multiplies on the right, for an extrinsic
sequence on the left. -/
def composeEuler (intrinsic : Bool) (seq : List (Char × ℝ)) : Quat :=
  seq.foldl
    (fun acc p =>
      if intrinsic then quatMul acc (elementaryQuat p.1 p.2)
      else quatMul (elementaryQuat p.1 p.2) acc)
    quatId

/-- `R.from_euler('xyz', [roll, pitch, yaw], degrees=True)` (line 41):
scipy's lowercase `'xyz'` denotes EXTRINSIC rotations about the fixed
axes x, then y, then z. -/
def fromEulerxyz (roll pitch yaw : ℝ) : Quat :=
  composeEuler false [('x', roll), ('y', pitch), ('z', yaw)]

/-- Modelled from the spec: "intrinsic composition order x-then-y-then-z"
(section 4.2).  scipy would spell this `from_euler('XYZ', ...)`; the
code under `src/` does not contain it. -/
def fromEulerIntrinsicXYZ (roll pitch yaw : ℝ) : Quat :=
  composeEuler true [('x', roll), ('y', pitch), ('z', yaw)]

/-- One row of the `quaternions` array.  scipy's `as_quat()` is
scalar-LAST: the stored components are `[x, y, z, w]`. -/
structure QuatRow where
  c0 : ℝ
  c1 : ℝ
  c2 : ℝ
  c3 : ℝ

/-- `as_quat()`: scalar-last output `[x, y, z, w]`. -/
def asQuat (q : Quat) : QuatRow := ⟨q.x, q.y, q.z, q.w⟩

/-- `euler_data` rows `[row.pitch, row.roll, row.heading_true]` (lines 29-32). -/
def eulerRows (data : List Sample) : List (ℝ × ℝ × ℝ) :=
  data.map (fun s => ((s.pitch : ℝ), (s.roll : ℝ), (s.heading_true : ℝ)))

/-- `angular_rates` rows `[row.P, row.Q, row.R]` (lines 34-37). -/
def rateRows (data : List Sample) : List (ℝ × ℝ × ℝ) :=
  data.map (fun s => ((s.P : ℝ), (s.Q : ℝ), (s.R : ℝ)))

/-- Lines 40-43: `for pitch, roll, yaw in euler_data:
R.from_euler('xyz', [roll, pitch, yaw], degrees=True).as_quat()`. -/
def quatSeries (data : List Sample) : List QuatRow :=
  (eulerRows data).map (fun row => asQuat (fromEulerxyz row.2.1 row.1 row.2.2))

/-! numpy statistics over a full column -/

/-- `np.mean`. -/
def mean (l : List ℝ) : ℝ := l.sum / l.length

/-- population variance, the radicand of `np.std`. -/
def popVar (l : List ℝ) : ℝ := mean (l.map (fun x => (x - mean l) ^ 2))

/-- `np.std` (population standard deviation). -/
def popStd (l : List ℝ) : ℝ := Real.sqrt (popVar l)

def listMax : List ℝ → ℝ
  | [] => 0
  | x :: xs => xs.foldl max x

def listMin : List ℝ → ℝ
  | [] => 0
  | x :: xs => xs.foldl min x

/-- `np.ptp` (peak to peak: max − min). -/
def ptp (l : List ℝ) : ℝ := listMax l - listMin l

/-- `np.max(np.abs(...))`. -/
def absMax (l : List ℝ) : ℝ := listMax (l.map (fun x => |x|))

structure EulerStats where
  pitch_mean : ℝ
  pitch_std : ℝ
  pitch_range : ℝ
  roll_mean : ℝ
  roll_std : ℝ
  roll_range : ℝ
  heading_mean : ℝ
  heading_std : ℝ
  heading_range : ℝ

structure RateStats where
  P_max : ℝ
  Q_max : ℝ
  R_max : ℝ
  P_mean : ℝ
  Q_mean : ℝ
  R_mean : ℝ

structure QuatStats where
  w_std : ℝ
  x_std : ℝ
  y_std : ℝ
  z_std : ℝ

structure ScenarioStats where
  euler : EulerStats
  rates : RateStats
  quaternion : QuatStats

/-- The `stats` dict (lines 46-72).  The quaternion entries are labelled
w/x/y/z but read the stored columns 0-3, which for scipy's scalar-last
`as_quat()` hold x/y/z/w. -/
def statsOfData (data : List Sample) : ScenarioStats :=
  let e := eulerRows data
  let r := rateRows data
  let q := quatSeries data
  { euler :=
      { pitch_mean := mean (e.map (·.1))
        pitch_std := popStd (e.map (·.1))
        pitch_range := ptp (e.map (·.1))
        roll_mean := mean (e.map (·.2.1))
        roll_std := popStd (e.map (·.2.1))
        roll_range := ptp (e.map (·.2.1))
        heading_mean := mean (e.map (·.2.2))
        heading_std := popStd (e.map (·.2.2))
        heading_range := ptp (e.map (·.2.2)) }
    rates :=
      { P_max := absMax (r.map (·.1))
        Q_max := absMax (r.map (·.2.1))
        R_max := absMax (r.map (·.2.2))
        P_mean := mean (r.map (·.1))
        Q_mean := mean (r.map (·.2.1))
        R_mean := mean (r.map (·.2.2)) }
    quaternion :=
      { w_std := popStd (q.map (·.c0))
        x_std := popStd (q.map (·.c1))
        y_std := popStd (q.map (·.c2))
        z_std := popStd (q.map (·.c3)) } }

structure ScenarioResults where
  time : List ℝ
  euler_data : List (ℝ × ℝ × ℝ)
  quaternions : List QuatRow
  angular_rates : List (ℝ × ℝ × ℝ)
  stats : ScenarioStats
  scenario : String

/-- `analyze_scenario` (lines 26-81).  On an empty table
`np.array([...])` is 1-dimensional, so the column slice
`euler_data[:, 0]` at line 48 raises `IndexError`; the analyzer only
returns a bundle for a non-empty table. -/
def analyzeScenario (data : List Sample) (name : String) : Except String ScenarioResults :=
  if data.isEmpty then Except.error "IndexError"
  else
    Except.ok
      { time := timeAxis data.length
        euler_data := eulerRows data
        quaternions := quatSeries data
        angular_rates := rateRows data
        stats := statsOfData data
        scenario := name }

/-! ## Orchestrator (`main`, lines 135-179) -/

/-- Per-scenario outcome at the `try/except` boundary. -/
inductive Outcome where
  | success (r : ScenarioResults)
  | missingFile
  | analysisError

/-- The four scenario names and file paths (lines 137-142). -/
def scenarioFiles : List (String × String) :=
  [("cruising", "cruising_data.txt"), ("climbing", "climbing_data.txt"),
   ("rolling", "rolling_data.txt"), ("descending", "descending_data.txt")]

/-- One iteration of the scenario loop: `FileNotFoundError` is caught as
the missing-file warning (lines 174-176), every other exception as the
generic analysis error (lines 177-179). -/
def runScenario (fs : String → Option (List String)) (name path : String) : Outcome :=
  match fs path with
  | none => Outcome.missingFile
  | some lines =>
    match readXplaneData lines with
    | none => Outcome.analysisError
    | some tbl =>
      match analyzeScenario tbl name with
      | Except.error _ => Outcome.analysisError
      | Except.ok r => Outcome.success r

/-- `main`: attempt all four scenarios in order, never propagating a
per-scenario failure. -/
def mainRun (fs : String → Option (List String)) : List (String × Outcome) :=
  scenarioFiles.map (fun sc => (sc.1, runScenario fs sc.1 sc.2))

end

/-! ## Serialization (spec section 8 round-trip) -/

/-- Python `'|'.join(fields)`. -/
def joinSep (sep : Char) : List (List Char) → List Char
  | [] => []
  | [f] => f
  | f :: g :: r => f ++ sep :: joinSep sep (g :: r)

/-- Modelled from the spec: "re-serializing a parsed Sample with
`|`-joined fields" (section 8).  The code has no serializer; each value
is printed exactly in scaled-integer scientific form `<m>e-<d>`, which
`float()` accepts. -/
def printRat (v : ℚ) : List Char :=
  intToChars (v.num * ((10 : ℤ) ^ (v.den : ℕ) / (v.den : ℤ))) ++ 'e' :: '-' :: natToDigits v.den

/-- Modelled from the spec: serialize the 9 parsed values `|`-joined. -/
def serializeVals (vs : List ℚ) : List Char := joinSep '|' (vs.map printRat)

/-- All-zero telemetry record. -/
def sampleZero : Sample := ⟨0, 0, 0, 0, 0, 0, 0, 0, 0⟩

/-- Record with roll = 90°, every other field 0. -/
def sampleRoll90 : Sample := ⟨0, 90, 0, 0, 0, 0, 0, 0, 0⟩

/-- Record with pitch = 90° and roll = 90°, every other field 0. -/
def samplePR90 : Sample := ⟨90, 90, 0, 0, 0, 0, 0, 0, 0⟩

/-- Header + three 9-field data lines (spec section 8, parser property). -/
def c3DemoLines : List String :=
  ["   pitch,  deg | _roll,  deg | hding, true | hding,  mag ",
   " 1.0 | 2.0 | 3.0 | 4.0 | 5.0 | 6.0 | 7.0 | 8.0 | 9.0",
   "-1.5|2|3|4|5|6|7|8|9",
   "0|0|0|0|0|0|0|0|0"]

/-! ## Lemmas: substring search -/

theorem leadsWith_iff (a : List Char) : ∀ b, leadsWith a b = true ↔ ∃ r, b = a ++ r := by
  induction a with
  | nil =>
    intro b
    constructor
    · intro _; exact ⟨b, rfl⟩
    · intro _; rfl
  | cons c cs ih =>
    intro b
    cases b with
    | nil =>
      simp only [leadsWith, List.cons_append]
      constructor
      · intro h; cases h
      · rintro ⟨r, hr⟩; cases hr
    | cons d ds =>
      simp only [leadsWith, Bool.and_eq_true, beq_iff_eq, ih, List.cons_append,
        List.cons.injEq]
      constructor
      · rintro ⟨h1, r, h2⟩; exact ⟨r, h1.symm, h2⟩
      · rintro ⟨r, h1, h2⟩; exact ⟨h1.symm, r, h2⟩

theorem hasSubstr_iff (pat : List Char) :
    ∀ l, hasSubstr pat l = true ↔ ∃ pre post, l = pre ++ (pat ++ post) := by
  intro l
  induction l with
  | nil =>
    simp only [hasSubstr, List.isEmpty_iff]
    constructor
    · intro h; exact ⟨[], [], by simp [h]⟩
    · rintro ⟨pre, post, h⟩
      rcases List.append_eq_nil.mp h.symm with ⟨-, h2⟩
      rcases List.append_eq_nil.mp h2 with ⟨h3, -⟩
      exact h3
  | cons c rest ih =>
    simp only [hasSubstr, Bool.or_eq_true, leadsWith_iff, ih]
    constructor
    · rintro (⟨r, hr⟩ | ⟨pre, post, hp⟩)
      · exact ⟨[], r, by simpa using hr⟩
      · exact ⟨c :: pre, post, by simp [hp]⟩
    · rintro ⟨pre, post, hp⟩
      cases pre with
      | nil => exact Or.inl ⟨post, by simpa using hp⟩
      | cons e pre2 =>
        rw [List.cons_append] at hp
        injection hp with h1 h2
        exact Or.inr ⟨pre2, post, h2⟩

/-! ## C3: the data-line filter -/

/-- C3: a line is a data line iff it is non-empty after stripping,
contains `'|'`, and does not contain the token `pitch`; a header line
with `pitch` plus three valid 9-field lines parse to exactly 3 rows. -/
theorem claim_c3 :
    (∀ ln : String, isDataLineB ln.data = true ↔
      (pyStrip ln.data ≠ [] ∧ '|' ∈ ln.data ∧
        ¬ ∃ pre post, ln.data = pre ++ (pitchToken ++ post)))
    ∧ (readXplaneData c3DemoLines).map List.length = some 3 := by
  constructor
  · intro ln
    simp only [isDataLineB, Bool.and_eq_true, Bool.not_eq_true', List.any_eq_true,
      beq_iff_eq, List.isEmpty_eq_false, Bool.eq_false_iff, hasSubstr_iff,
      exists_eq_right, ne_eq, List.isEmpty_iff]
    tauto
  · rfl

/-! ## C7: the time axis -/

/-- C7: the time axis is `index / 5.0`; for 10 rows it is
`[0.0, 0.2, ..., 1.8]`. -/
theorem claim_c7 (n i : ℕ) (h : i < n) :
    (timeAxis n).getD i 0 = (i : ℝ) / 5 ∧
    timeAxis 10 = [0, 0.2, 0.4, 0.6, 0.8, 1.0, 1.2, 1.4, 1.6, 1.8] := by
  constructor
  · rw [timeAxis]
    have hlen : i < ((List.range n).map (fun (j : ℕ) => (j : ℝ) / sample_rate)).length := by
      simpa using h
    rw [List.getD_eq_getElem?_getD, List.getElem?_eq_getElem hlen, List.getElem_map,
      List.getElem_range]
    simp only [sample_rate, Option.getD_some]
  · have hr : List.range 10 = [0, 1, 2, 3, 4, 5, 6, 7, 8, 9] := rfl
    rw [timeAxis, hr]
    simp only [List.map_cons, List.map_nil, sample_rate]
    norm_num

theorem claim_c7_witness :
    3 < 10 ∧
    ((timeAxis 10).getD 3 0 = ((3 : ℕ) : ℝ) / 5 ∧
      timeAxis 10 = [0, 0.2, 0.4, 0.6, 0.8, 1.0, 1.2, 1.4, 1.6, 1.8]) :=
  ⟨by norm_num, claim_c7 10 3 (by norm_num)⟩

/-! ## C8: the orchestrator skips failed scenarios -/

/-- C8: `main` attempts all four scenarios whatever the file system
holds; a missing file yields the missing-file warning outcome for that
scenario while the other scenarios still appear in the run. -/
theorem claim_c8 (fs : String → Option (List String)) :
    (mainRun fs).length = 4 ∧
    (mainRun fs).map Prod.fst = ["cruising", "climbing", "rolling", "descending"] ∧
    ∀ name path, (name, path) ∈ scenarioFiles → fs path = none →
      (name, Outcome.missingFile) ∈ mainRun fs := by
  refine ⟨rfl, rfl, ?_⟩
  intro name path hmem hnone
  have hrun : runScenario fs name path = Outcome.missingFile := by
    rw [runScenario, hnone]
  rw [mainRun]
  exact List.mem_map.mpr ⟨(name, path), hmem, by rw [hrun]⟩

/-! ## C10: a file with no qualifying lines -/

/-- C10: when no line qualifies, the parser returns the empty table and
the analyzer raises on the empty column slice, so the scenario ends as
an analysis error rather than all-zero statistics. -/
theorem claim_c10 (lines : List String) (fs : String → Option (List String))
    (name path : String)
    (hq : ∀ ln ∈ lines, isDataLineB ln.data = false)
    (hfs : fs path = some lines) :
    readXplaneData lines = some [] ∧
    analyzeScenario [] name = Except.error "IndexError" ∧
    runScenario fs name path = Outcome.analysisError := by
  have hfilter : lines.filter (fun ln => isDataLineB ln.data) = [] := by
    rw [List.filter_eq_nil_iff]
    intro a ha
    simp [hq a ha]
  have h1 : readXplaneData lines = some [] := by
    rw [readXplaneData, hfilter]
    rfl
  refine ⟨h1, rfl, ?_⟩
  simp only [runScenario, hfs, h1, analyzeScenario, List.isEmpty_nil, if_true]

theorem claim_c10_witness :
    (∀ ln ∈ (["pitch|roll", "", "no separator"] : List String), isDataLineB ln.data = false) ∧
    ((fun _ : String => some (["pitch|roll", "", "no separator"] : List String)) "p" =
      some (["pitch|roll", "", "no separator"] : List String)) ∧
    (readXplaneData ["pitch|roll", "", "no separator"] = some [] ∧
      analyzeScenario [] "cruising" = Except.error "IndexError" ∧
      runScenario (fun _ => some ["pitch|roll", "", "no separator"]) "cruising" "p" =
        Outcome.analysisError) :=
  ⟨by decide, rfl,
    claim_c10 ["pitch|roll", "", "no separator"]
      (fun _ => some ["pitch|roll", "", "no separator"]) "cruising" "p" (by decide) rfl⟩

/-! ## Lemmas: quaternions -/

theorem quatMul_quatId (a : Quat) : quatMul a quatId = a := by
  ext <;> simp [quatMul, quatId]

theorem quatId_quatMul (a : Quat) : quatMul quatId a = a := by
  ext <;> simp [quatMul, quatId]

/-- Unfolding of scipy's extrinsic `'xyz'` fold: the later (y, then z)
elementary rotations multiply on the left. -/
theorem fromEulerxyz_eq (r p y : ℝ) :
    fromEulerxyz r p y =
      quatMul (elementaryQuat 'z' y)
        (quatMul (elementaryQuat 'y' p) (elementaryQuat 'x' r)) := by
  simp [fromEulerxyz, composeEuler, quatMul_quatId]

/-- Unfolding of the intrinsic `'XYZ'` fold: later rotations multiply on
the right. -/
theorem fromEulerIntrinsicXYZ_eq (r p y : ℝ) :
    fromEulerIntrinsicXYZ r p y =
      quatMul (quatMul (elementaryQuat 'x' r) (elementaryQuat 'y' p))
        (elementaryQuat 'z' y) := by
  simp [fromEulerIntrinsicXYZ, composeEuler, quatId_quatMul]

theorem quatNormSq_mul (a b : Quat) :
    quatNormSq (quatMul a b) = quatNormSq a * quatNormSq b := by
  simp only [quatMul, quatNormSq]
  ring

theorem quatNormSq_elementary (ax : Char) (θ : ℝ) :
    quatNormSq (elementaryQuat ax θ) = 1 := by
  rw [elementaryQuat]
  split_ifs <;> simp [quatNormSq, Real.cos_sq_add_sin_sq]

theorem degToRad_ninety : degToRad 90 / 2 = Real.pi / 4 := by
  rw [degToRad]; ring

theorem degToRad_zero : degToRad 0 / 2 = 0 := by
  rw [degToRad]; ring

theorem elementaryQuat_x_ninety :
    elementaryQuat 'x' 90 = ⟨Real.sqrt 2 / 2, Real.sqrt 2 / 2, 0, 0⟩ := by
  have h : elementaryQuat 'x' 90 =
      ⟨Real.cos (degToRad 90 / 2), Real.sin (degToRad 90 / 2), 0, 0⟩ := rfl
  rw [h, degToRad_ninety, Real.cos_pi_div_four, Real.sin_pi_div_four]

theorem elementaryQuat_y_ninety :
    elementaryQuat 'y' 90 = ⟨Real.sqrt 2 / 2, 0, Real.sqrt 2 / 2, 0⟩ := by
  have h : elementaryQuat 'y' 90 =
      ⟨Real.cos (degToRad 90 / 2), 0, Real.sin (degToRad 90 / 2), 0⟩ := rfl
  rw [h, degToRad_ninety, Real.cos_pi_div_four, Real.sin_pi_div_four]

theorem elementaryQuat_zero (ax : Char) : elementaryQuat ax 0 = quatId := by
  rw [elementaryQuat]
  split_ifs <;> simp [quatId, degToRad_zero]

theorem fromEulerxyz_zero : fromEulerxyz 0 0 0 = quatId := by
  rw [fromEulerxyz_eq, elementaryQuat_zero, elementaryQuat_zero, elementaryQuat_zero,
    quatId_quatMul, quatId_quatMul]

theorem fromEulerxyz_roll_ninety : fromEulerxyz 90 0 0 = elementaryQuat 'x' 90 := by
  rw [fromEulerxyz_eq, elementaryQuat_zero, elementaryQuat_zero, quatId_quatMul,
    quatId_quatMul]

/-! ## C2: Euler-to-quaternion composition order -/

/-- C2 counterexample: at roll = pitch = 90°, heading = 0, the quaternion
the analyzer produces (scipy's EXTRINSIC `'xyz'`) is not the intrinsic
x-then-y-then-z composition the claim describes: their z-components are
−1/2 and +1/2. -/
theorem claim_c2_counterexample :
    quatSeries [samplePR90] ≠
      [asQuat (fromEulerIntrinsicXYZ ((samplePR90.roll : ℚ) : ℝ)
        ((samplePR90.pitch : ℚ) : ℝ) ((samplePR90.heading_true : ℚ) : ℝ))] := by
  have hs : Real.sin (Real.pi / 4) * Real.sin (Real.pi / 4) = 1 / 2 := by
    rw [Real.sin_pi_div_four]
    rw [div_mul_div_comm, Real.mul_self_sqrt (by norm_num)]
    norm_num
  have hext : (fromEulerxyz 90 90 0).z = -(1 / 2) := by
    rw [fromEulerxyz_eq, elementaryQuat_zero, quatId_quatMul, elementaryQuat_x_ninety,
      elementaryQuat_y_ninety]
    show Real.sqrt 2 / 2 * 0 + 0 * 0 - Real.sqrt 2 / 2 * (Real.sqrt 2 / 2) +
        0 * (Real.sqrt 2 / 2) = -(1 / 2)
    rw [show Real.sqrt 2 / 2 * (Real.sqrt 2 / 2) =
      Real.sin (Real.pi / 4) * Real.sin (Real.pi / 4) by rw [Real.sin_pi_div_four]]
    rw [hs]; ring
  have hint : (fromEulerIntrinsicXYZ 90 90 0).z = 1 / 2 := by
    rw [fromEulerIntrinsicXYZ_eq, elementaryQuat_zero, quatMul_quatId,
      elementaryQuat_x_ninety, elementaryQuat_y_ninety]
    show Real.sqrt 2 / 2 * 0 + Real.sqrt 2 / 2 * (Real.sqrt 2 / 2) - 0 * 0 +
        0 * (Real.sqrt 2 / 2) = 1 / 2
    rw [show Real.sqrt 2 / 2 * (Real.sqrt 2 / 2) =
      Real.sin (Real.pi / 4) * Real.sin (Real.pi / 4) by rw [Real.sin_pi_div_four]]
    rw [hs]; ring
  intro h
  have hq : quatSeries [samplePR90] =
      [asQuat (fromEulerxyz ((samplePR90.roll : ℚ) : ℝ) ((samplePR90.pitch : ℚ) : ℝ)
        ((samplePR90.heading_true : ℚ) : ℝ))] := by
    simp [quatSeries, eulerRows]
  rw [hq] at h
  have h0 : asQuat (fromEulerxyz ((samplePR90.roll : ℚ) : ℝ) ((samplePR90.pitch : ℚ) : ℝ)
      ((samplePR90.heading_true : ℚ) : ℝ)) =
      asQuat (fromEulerIntrinsicXYZ ((samplePR90.roll : ℚ) : ℝ)
        ((samplePR90.pitch : ℚ) : ℝ) ((samplePR90.heading_true : ℚ) : ℝ)) := by
    injection h
  have hcast : ((samplePR90.roll : ℚ) : ℝ) = 90 ∧ ((samplePR90.pitch : ℚ) : ℝ) = 90 ∧
      ((samplePR90.heading_true : ℚ) : ℝ) = 0 := by
    refine ⟨?_, ?_, ?_⟩ <;> norm_num [samplePR90]
  rw [hcast.1, hcast.2.1, hcast.2.2] at h0
  have hz := congrArg QuatRow.c2 h0
  simp only [asQuat] at hz
  rw [hext, hint] at hz
  norm_num at hz

/-- C2 (amended): the quaternion series is built per sample from Euler
angles ordered (roll, pitch, heading_true) about axes (x, y, z), in
degrees, composed in EXTRINSIC x-then-y-then-z order (scipy's lowercase
`'xyz'`), not intrinsic. -/
theorem claim_c2 (data : List Sample) :
    quatSeries data = data.map (fun s =>
      asQuat (quatMul (elementaryQuat 'z' ((s.heading_true : ℚ) : ℝ))
        (quatMul (elementaryQuat 'y' ((s.pitch : ℚ) : ℝ))
          (elementaryQuat 'x' ((s.roll : ℚ) : ℝ))))) := by
  rw [quatSeries, eulerRows, List.map_map]
  exact List.map_congr_left (fun s _ => by simp [Function.comp, fromEulerxyz_eq])

/-! ## C9: unit norm of every produced quaternion -/

/-- C9: for every sample, the quaternion produced by the conversion has
unit norm (exactly, in the real-number idealisation), in particular
within the 1e-6 floating-point tolerance. -/
theorem claim_c9 (s : Sample) :
    quatNormSq (fromEulerxyz ((s.roll : ℚ) : ℝ) ((s.pitch : ℚ) : ℝ)
      ((s.heading_true : ℚ) : ℝ)) = 1 ∧
    |Real.sqrt (quatNormSq (fromEulerxyz ((s.roll : ℚ) : ℝ) ((s.pitch : ℚ) : ℝ)
      ((s.heading_true : ℚ) : ℝ))) - 1| ≤ 1 / 1000000 := by
  have h1 : quatNormSq (fromEulerxyz ((s.roll : ℚ) : ℝ) ((s.pitch : ℚ) : ℝ)
      ((s.heading_true : ℚ) : ℝ)) = 1 := by
    rw [fromEulerxyz_eq, quatNormSq_mul, quatNormSq_mul, quatNormSq_elementary,
      quatNormSq_elementary, quatNormSq_elementary]
    norm_num
  refine ⟨h1, ?_⟩
  rw [h1, Real.sqrt_one]
  norm_num

/-! ## Lemmas: numpy statistics -/

theorem popVar_pair (a b : ℝ) : popVar [a, b] = ((b - a) / 2) ^ 2 := by
  simp only [popVar, mean, List.map_cons, List.map_nil, List.sum_cons, List.sum_nil,
    List.length_cons, List.length_nil]
  norm_num
  ring

theorem popStd_pair_le (a b : ℝ) (h : a ≤ b) : popStd [a, b] = (b - a) / 2 := by
  rw [popStd, popVar_pair]
  exact Real.sqrt_sq (by linarith)

theorem popStd_pair_ge (a b : ℝ) (h : b ≤ a) : popStd [a, b] = (a - b) / 2 := by
  rw [popStd, popVar_pair, show ((b - a) / 2) ^ 2 = ((a - b) / 2) ^ 2 by ring]
  exact Real.sqrt_sq (by linarith)

theorem mean_replicate (n : ℕ) (a : ℝ) (h : n ≠ 0) :
    mean (List.replicate n a) = a := by
  rw [mean, List.sum_replicate, List.length_replicate, nsmul_eq_mul]
  field_simp

theorem popStd_replicate (n : ℕ) (a : ℝ) (h : n ≠ 0) :
    popStd (List.replicate n a) = 0 := by
  have hv : popVar (List.replicate n a) = 0 := by
    rw [popVar, mean_replicate n a h, List.map_replicate]
    simp [mean, List.sum_replicate]
  rw [popStd, hv, Real.sqrt_zero]

theorem foldl_max_replicate (m : ℕ) (a : ℝ) :
    List.foldl max a (List.replicate m a) = a := by
  induction m with
  | zero => rfl
  | succ k ih => simp [List.replicate_succ, List.foldl_cons, max_self, ih]

theorem foldl_min_replicate (m : ℕ) (a : ℝ) :
    List.foldl min a (List.replicate m a) = a := by
  induction m with
  | zero => rfl
  | succ k ih => simp [List.replicate_succ, List.foldl_cons, min_self, ih]

theorem ptp_replicate (n : ℕ) (a : ℝ) (h : n ≠ 0) :
    ptp (List.replicate n a) = 0 := by
  obtain ⟨m, rfl⟩ := Nat.exists_eq_succ_of_ne_zero h
  rw [ptp, List.replicate_succ]
  show List.foldl max a (List.replicate m a) - List.foldl min a (List.replicate m a) = 0
  rw [foldl_max_replicate, foldl_min_replicate, sub_self]

/-! ## C1: the quaternion component order handed to the statistics -/

/-- C1 is a code bug: scipy's `as_quat()` is scalar-LAST, so index 0 of a
quaternion row is x, not the scalar w the statistics stage assumes.  At
the identity rotation the row is `[0, 0, 0, 1]`: index 0 holds 0 while
the scalar part is 1.  On the two-sample dataset {identity, roll = 90°}
the reported `w_std` is std of the x column, `√2/4`, while the std of
the actual scalar components (stored at index 3) is `(2 − √2)/4`. -/
theorem claim_c1_bug :
    (asQuat (fromEulerxyz 0 0 0)).c0 = 0 ∧
    (fromEulerxyz 0 0 0).w = 1 ∧
    (statsOfData [sampleZero, sampleRoll90]).quaternion.w_std = Real.sqrt 2 / 4 ∧
    popStd ((quatSeries [sampleZero, sampleRoll90]).map (fun r => r.c3)) =
      (2 - Real.sqrt 2) / 4 ∧
    (statsOfData [sampleZero, sampleRoll90]).quaternion.w_std ≠
      popStd ((quatSeries [sampleZero, sampleRoll90]).map (fun r => r.c3)) := by
  have hsq : Real.sqrt 2 ^ 2 = 2 := Real.sq_sqrt (by norm_num)
  have hnn : (0 : ℝ) ≤ Real.sqrt 2 := Real.sqrt_nonneg 2
  have hle : Real.sqrt 2 ≤ 2 := by nlinarith
  have h1 : quatSeries [sampleZero, sampleRoll90] =
      [asQuat (fromEulerxyz 0 0 0), asQuat (fromEulerxyz 90 0 0)] := by
    simp [quatSeries, eulerRows, sampleZero, sampleRoll90]
  have h2 : quatSeries [sampleZero, sampleRoll90] =
      [⟨0, 0, 0, 1⟩, ⟨Real.sqrt 2 / 2, 0, 0, Real.sqrt 2 / 2⟩] := by
    rw [h1, fromEulerxyz_zero, fromEulerxyz_roll_ninety, elementaryQuat_x_ninety]
    rfl
  have hcol0 : (quatSeries [sampleZero, sampleRoll90]).map (fun r => r.c0) =
      [0, Real.sqrt 2 / 2] := by rw [h2]; rfl
  have hcol3 : (quatSeries [sampleZero, sampleRoll90]).map (fun r => r.c3) =
      [1, Real.sqrt 2 / 2] := by rw [h2]; rfl
  have hwstd : (statsOfData [sampleZero, sampleRoll90]).quaternion.w_std =
      popStd ((quatSeries [sampleZero, sampleRoll90]).map (fun r => r.c0)) := rfl
  have hv0 : (statsOfData [sampleZero, sampleRoll90]).quaternion.w_std = Real.sqrt 2 / 4 := by
    rw [hwstd, hcol0, popStd_pair_le 0 (Real.sqrt 2 / 2) (by linarith)]
    ring
  have hv3 : popStd ((quatSeries [sampleZero, sampleRoll90]).map (fun r => r.c3)) =
      (2 - Real.sqrt 2) / 4 := by
    rw [hcol3, popStd_pair_ge 1 (Real.sqrt 2 / 2) (by linarith)]
    ring
  refine ⟨by rw [fromEulerxyz_zero]; rfl, by rw [fromEulerxyz_zero]; rfl, hv0, hv3, ?_⟩
  rw [hv0, hv3]
  intro heq
  nlinarith

/-! ## C5: constant dataset gives zero spread -/

/-- C5: on a non-empty constant dataset every Euler std and range and
every quaternion-component std is exactly zero, and the produced
quaternion is the same in every row. -/
theorem claim_c5 (data : List Sample) (c : Sample) (hne : data ≠ [])
    (hall : ∀ s ∈ data, s = c) :
    (statsOfData data).euler.pitch_std = 0 ∧ (statsOfData data).euler.pitch_range = 0 ∧
    (statsOfData data).euler.roll_std = 0 ∧ (statsOfData data).euler.roll_range = 0 ∧
    (statsOfData data).euler.heading_std = 0 ∧ (statsOfData data).euler.heading_range = 0 ∧
    (statsOfData data).quaternion.w_std = 0 ∧ (statsOfData data).quaternion.x_std = 0 ∧
    (statsOfData data).quaternion.y_std = 0 ∧ (statsOfData data).quaternion.z_std = 0 ∧
    quatSeries data = List.replicate data.length
      (asQuat (fromEulerxyz ((c.roll : ℚ) : ℝ) ((c.pitch : ℚ) : ℝ)
        ((c.heading_true : ℚ) : ℝ))) := by
  obtain ⟨n, rfl⟩ : ∃ n, data = List.replicate n c :=
    ⟨data.length, List.eq_replicate_of_mem hall⟩
  have hn : n ≠ 0 := by
    intro h0
    exact hne (by simp [h0])
  have he : eulerRows (List.replicate n c) =
      List.replicate n (((c.pitch : ℚ) : ℝ), ((c.roll : ℚ) : ℝ), ((c.heading_true : ℚ) : ℝ)) := by
    rw [eulerRows, List.map_replicate]
  have hq : quatSeries (List.replicate n c) =
      List.replicate n (asQuat (fromEulerxyz ((c.roll : ℚ) : ℝ) ((c.pitch : ℚ) : ℝ)
        ((c.heading_true : ℚ) : ℝ))) := by
    rw [quatSeries, he, List.map_replicate]
  refine ⟨?_, ?_, ?_, ?_, ?_, ?_, ?_, ?_, ?_, ?_, by simpa using hq⟩ <;>
    simp only [statsOfData, he, hq, List.map_replicate] <;>
    first
      | exact popStd_replicate n _ hn
      | exact ptp_replicate n _ hn

theorem claim_c5_witness :
    (([sampleZero] : List Sample) ≠ []) ∧
    ((statsOfData [sampleZero]).euler.pitch_std = 0 ∧
      (statsOfData [sampleZero]).euler.pitch_range = 0 ∧
      (statsOfData [sampleZero]).euler.roll_std = 0 ∧
      (statsOfData [sampleZero]).euler.roll_range = 0 ∧
      (statsOfData [sampleZero]).euler.heading_std = 0 ∧
      (statsOfData [sampleZero]).euler.heading_range = 0 ∧
      (statsOfData [sampleZero]).quaternion.w_std = 0 ∧
      (statsOfData [sampleZero]).quaternion.x_std = 0 ∧
      (statsOfData [sampleZero]).quaternion.y_std = 0 ∧
      (statsOfData [sampleZero]).quaternion.z_std = 0 ∧
      quatSeries [sampleZero] = List.replicate ([sampleZero] : List Sample).length
        (asQuat (fromEulerxyz ((sampleZero.roll : ℚ) : ℝ) ((sampleZero.pitch : ℚ) : ℝ)
          ((sampleZero.heading_true : ℚ) : ℝ)))) :=
  ⟨by decide, claim_c5 [sampleZero] sampleZero (by decide) (by decide)⟩

/-! ## C6: concrete pitch statistics -/

/-- C6: on a dataset whose pitch column is [0, 10, −10, 5] the reported
pitch mean is 1.25 and the peak-to-peak pitch range is 20. -/
theorem claim_c6 (data : List Sample) (h : data.map (fun s => s.pitch) = [0, 10, -10, 5]) :
    (statsOfData data).euler.pitch_mean = 1.25 ∧
    (statsOfData data).euler.pitch_range = 20 := by
  have hcol : (eulerRows data).map (fun t => t.1) = [(0 : ℝ), 10, -10, 5] := by
    rw [eulerRows, List.map_map]
    have h1 : data.map ((fun (t : ℝ × ℝ × ℝ) => t.1) ∘ fun s =>
        (((s.pitch : ℚ) : ℝ), ((s.roll : ℚ) : ℝ), ((s.heading_true : ℚ) : ℝ))) =
        (data.map (fun s => s.pitch)).map (fun q => ((q : ℚ) : ℝ)) := by
      rw [List.map_map]
      rfl
    rw [h1, h]
    norm_num
  have hmean : (statsOfData data).euler.pitch_mean =
      mean ((eulerRows data).map (fun t => t.1)) := rfl
  have hrange : (statsOfData data).euler.pitch_range =
      ptp ((eulerRows data).map (fun t => t.1)) := rfl
  constructor
  · rw [hmean, hcol]
    simp only [mean, List.sum_cons, List.sum_nil, List.length_cons, List.length_nil]
    norm_num
  · rw [hrange, hcol, ptp]
    simp only [listMax, listMin, List.foldl_cons, List.foldl_nil]
    rw [show max (0 : ℝ) 10 = 10 from max_eq_right (by norm_num),
      show max (10 : ℝ) (-10) = 10 from max_eq_left (by norm_num),
      show max (10 : ℝ) 5 = 10 from max_eq_left (by norm_num),
      show min (0 : ℝ) 10 = 0 from min_eq_left (by norm_num),
      show min (0 : ℝ) (-10) = -10 from min_eq_right (by norm_num),
      show min (-10 : ℝ) 5 = -10 from min_eq_left (by norm_num)]
    norm_num

theorem claim_c6_witness :
    (([⟨0, 0, 0, 0, 0, 0, 0, 0, 0⟩, ⟨10, 0, 0, 0, 0, 0, 0, 0, 0⟩,
        ⟨-10, 0, 0, 0, 0, 0, 0, 0, 0⟩, ⟨5, 0, 0, 0, 0, 0, 0, 0, 0⟩] :
      List Sample).map (fun s => s.pitch) = [0, 10, -10, 5]) ∧
    ((statsOfData [⟨0, 0, 0, 0, 0, 0, 0, 0, 0⟩, ⟨10, 0, 0, 0, 0, 0, 0, 0, 0⟩,
        ⟨-10, 0, 0, 0, 0, 0, 0, 0, 0⟩, ⟨5, 0, 0, 0, 0, 0, 0, 0, 0⟩]).euler.pitch_mean = 1.25 ∧
      (statsOfData [⟨0, 0, 0, 0, 0, 0, 0, 0, 0⟩, ⟨10, 0, 0, 0, 0, 0, 0, 0, 0⟩,
        ⟨-10, 0, 0, 0, 0, 0, 0, 0, 0⟩, ⟨5, 0, 0, 0, 0, 0, 0, 0, 0⟩]).euler.pitch_range = 20) :=
  ⟨by decide,
    claim_c6 [⟨0, 0, 0, 0, 0, 0, 0, 0, 0⟩, ⟨10, 0, 0, 0, 0, 0, 0, 0, 0⟩,
      ⟨-10, 0, 0, 0, 0, 0, 0, 0, 0⟩, ⟨5, 0, 0, 0, 0, 0, 0, 0, 0⟩] (by decide)⟩

/-! ## Lemmas: decimal digit printing -/

theorem digitVal_digitChar (d : ℕ) (h : d < 10) : digitVal (digitChar d) = d := by
  interval_cases d <;> decide

theorem isDigitB_digitChar (d : ℕ) (h : d < 10) : isDigitB (digitChar d) = true := by
  interval_cases d <;> decide

theorem natToDigitsRev_digits (n : ℕ) : ∀ c ∈ natToDigitsRev n, isDigitB c = true := by
  induction n using Nat.strong_induction_on with
  | _ n ih =>
    rw [natToDigitsRev]
    split
    · intro c hc
      rw [List.mem_singleton] at hc
      subst hc
      exact isDigitB_digitChar n (by omega)
    · intro c hc
      rcases List.mem_cons.mp hc with h1 | h1
      · subst h1
        exact isDigitB_digitChar _ (Nat.mod_lt _ (by omega))
      · exact ih (n / 10) (Nat.div_lt_self (by omega) (by omega)) c h1

theorem natToDigits_digits (n : ℕ) : ∀ c ∈ natToDigits n, isDigitB c = true := by
  intro c hc
  exact natToDigitsRev_digits n c (List.mem_reverse.mp hc)

theorem natToDigitsRev_ne_nil (n : ℕ) : natToDigitsRev n ≠ [] := by
  rw [natToDigitsRev]
  split <;> simp

theorem natToDigits_ne_nil (n : ℕ) : natToDigits n ≠ [] := by
  rw [natToDigits]
  simpa using natToDigitsRev_ne_nil n

theorem digitsToNat_append_singleton (xs : List Char) (c : Char) :
    digitsToNat (xs ++ [c]) = 10 * digitsToNat xs + digitVal c := by
  rw [digitsToNat, List.foldl_append]
  rfl

theorem digitsToNat_natToDigits (n : ℕ) : digitsToNat (natToDigits n) = n := by
  induction n using Nat.strong_induction_on with
  | _ n ih =>
    rw [natToDigits, natToDigitsRev]
    split
    · show digitsToNat [digitChar n] = n
      show 10 * 0 + digitVal (digitChar n) = n
      rw [digitVal_digitChar n (by omega)]
      omega
    · rw [List.reverse_cons, digitsToNat_append_singleton]
      rw [show (natToDigitsRev (n / 10)).reverse = natToDigits (n / 10) from rfl]
      rw [ih (n / 10) (Nat.div_lt_self (by omega) (by omega))]
      rw [digitVal_digitChar _ (Nat.mod_lt _ (by omega))]
      omega

/-! ## Lemmas: takeWhile, dropWhile, strip -/

theorem takeWhile_of_all {p : Char → Bool} : ∀ {l : List Char},
    (∀ c ∈ l, p c = true) → l.takeWhile p = l := by
  intro l
  induction l with
  | nil => intro _; rfl
  | cons c cs ih =>
    intro h
    rw [List.takeWhile_cons, h c (by simp), ih (fun b hb => h b (by simp [hb]))]
    simp

theorem dropWhile_of_all {p : Char → Bool} : ∀ {l : List Char},
    (∀ c ∈ l, p c = true) → l.dropWhile p = [] := by
  intro l
  induction l with
  | nil => intro _; rfl
  | cons c cs ih =>
    intro h
    rw [List.dropWhile_cons, h c (by simp)]
    exact ih (fun b hb => h b (by simp [hb]))

theorem takeWhile_append_stop {p : Char → Bool} {l1 : List Char} {b : Char}
    {l2 : List Char} (h1 : ∀ c ∈ l1, p c = true) (h2 : p b = false) :
    (l1 ++ b :: l2).takeWhile p = l1 := by
  induction l1 with
  | nil => simp [List.takeWhile_cons, h2]
  | cons c cs ih =>
    rw [List.cons_append, List.takeWhile_cons, h1 c (by simp)]
    rw [ih (fun d hd => h1 d (by simp [hd]))]
    simp

theorem dropWhile_append_stop {p : Char → Bool} {l1 : List Char} {b : Char}
    {l2 : List Char} (h1 : ∀ c ∈ l1, p c = true) (h2 : p b = false) :
    (l1 ++ b :: l2).dropWhile p = b :: l2 := by
  induction l1 with
  | nil => simp [List.dropWhile_cons, h2]
  | cons c cs ih =>
    rw [List.cons_append, List.dropWhile_cons, h1 c (by simp)]
    exact ih (fun d hd => h1 d (by simp [hd]))

theorem dropWhile_of_all_false {p : Char → Bool} {l : List Char}
    (h : ∀ c ∈ l, p c = false) : l.dropWhile p = l := by
  cases l with
  | nil => rfl
  | cons c cs =>
    rw [List.dropWhile_cons, h c (by simp)]
    simp

theorem pyStrip_of_no_space {l : List Char} (h : ∀ c ∈ l, pyIsSpace c = false) :
    pyStrip l = l := by
  rw [pyStrip, dropWhile_of_all_false h,
    dropWhile_of_all_false (fun c hc => h c (List.mem_reverse.mp hc)), List.reverse_reverse]

/-! ## Lemmas: split and join -/

theorem splitOnChar_no_sep {sep : Char} : ∀ {l : List Char},
    sep ∉ l → splitOnChar sep l = [l] := by
  intro l
  induction l with
  | nil => intro _; rfl
  | cons c cs ih =>
    intro h
    have hc : (c == sep) = false := by
      simp only [beq_eq_false_iff_ne, ne_eq]
      intro hcc
      exact h (by simp [hcc])
    rw [splitOnChar]
    simp only [hc, ih (fun hm => h (List.mem_cons_of_mem c hm))]
    rfl

theorem splitOnChar_append {sep : Char} : ∀ {l1 : List Char} (l2 : List Char),
    sep ∉ l1 → splitOnChar sep (l1 ++ sep :: l2) = l1 :: splitOnChar sep l2 := by
  intro l1
  induction l1 with
  | nil =>
    intro l2 _
    rw [List.nil_append, splitOnChar]
    simp
  | cons c cs ih =>
    intro l2 h
    have hc : (c == sep) = false := by
      simp only [beq_eq_false_iff_ne, ne_eq]
      intro hcc
      exact h (by simp [hcc])
    rw [List.cons_append, splitOnChar]
    simp only [hc, ih l2 (fun hm => h (List.mem_cons_of_mem c hm))]
    rfl

theorem splitOnChar_joinSep {sep : Char} : ∀ {fields : List (List Char)},
    fields ≠ [] → (∀ f ∈ fields, sep ∉ f) →
    splitOnChar sep (joinSep sep fields) = fields := by
  intro fields
  induction fields with
  | nil => intro h _; exact absurd rfl h
  | cons f rest ih =>
    intro _ hall
    cases rest with
    | nil =>
      rw [joinSep]
      exact splitOnChar_no_sep (hall f (by simp))
    | cons g r =>
      rw [joinSep, splitOnChar_append _ (hall f (by simp))]
      rw [ih (by simp) (fun x hx => hall x (List.mem_cons_of_mem f hx))]

/-! ## Lemmas: character classes -/

theorem isDigitB_facts {c : Char} (h : isDigitB c = true) :
    pyIsSpace c = false ∧ c ≠ '-' ∧ c ≠ '+' ∧ c ≠ '|' ∧ c ≠ '.' ∧ c ≠ 'e' ∧ c ≠ 'E' := by
  rw [isDigitB, Bool.and_eq_true, decide_eq_true_iff, decide_eq_true_iff] at h
  refine ⟨?_, ?_, ?_, ?_, ?_, ?_, ?_⟩
  · by_contra hsp
    rw [Bool.not_eq_false, pyIsSpace] at hsp
    simp only [Bool.or_eq_true, beq_iff_eq] at hsp
    rcases hsp with ((((h1 | h1) | h1) | h1) | h1) | h1 <;> subst h1 <;>
      exact absurd h (by decide)
  all_goals
    intro hc
    subst hc
    exact absurd h (by decide)

theorem printable_no_space {c : Char}
    (h : isDigitB c = true ∨ c = '-' ∨ c = 'e') : pyIsSpace c = false := by
  rcases h with h | h | h
  · exact (isDigitB_facts h).1
  · subst h; decide
  · subst h; decide

theorem printable_ne_bar {c : Char}
    (h : isDigitB c = true ∨ c = '-' ∨ c = 'e') : c ≠ '|' := by
  rcases h with h | h | h
  · exact (isDigitB_facts h).2.2.2.1
  · subst h; decide
  · subst h; decide

theorem intToChars_chars {m : ℤ} :
    ∀ c ∈ intToChars m, isDigitB c = true ∨ c = '-' ∨ c = 'e' := by
  intro c hc
  rw [intToChars] at hc
  split at hc
  · rcases List.mem_cons.mp hc with h | h
    · exact Or.inr (Or.inl h)
    · exact Or.inl (natToDigits_digits _ c h)
  · exact Or.inl (natToDigits_digits _ c hc)

theorem intToChars_ne_nil (m : ℤ) : intToChars m ≠ [] := by
  rw [intToChars]
  split
  · simp
  · exact natToDigits_ne_nil _

theorem printRat_chars {v : ℚ} :
    ∀ c ∈ printRat v, isDigitB c = true ∨ c = '-' ∨ c = 'e' := by
  intro c hc
  rw [printRat] at hc
  rcases List.mem_append.mp hc with h | h
  · exact intToChars_chars c h
  · rcases List.mem_cons.mp h with h1 | h1
    · exact Or.inr (Or.inr h1)
    · rcases List.mem_cons.mp h1 with h2 | h2
      · exact Or.inr (Or.inl h2)
      · exact Or.inl (natToDigits_digits _ c h2)

theorem printRat_ne_nil (v : ℚ) : printRat v ≠ [] := by
  rw [printRat]
  intro h
  exact intToChars_ne_nil _ (List.append_eq_nil.mp h).1

/-! ## Lemmas: parsing a printed value back -/

theorem parseSign_neg (r : List Char) : parseSign ('-' :: r) = (true, r) := by
  simp [parseSign]

theorem parseSign_digits {l1 : List Char} (hne : l1 ≠ [])
    (hdig : ∀ c ∈ l1, isDigitB c = true) (r : List Char) :
    parseSign (l1 ++ r) = (false, l1 ++ r) := by
  obtain ⟨c, cs, rfl⟩ := List.exists_cons_of_ne_nil hne
  have hc := isDigitB_facts (hdig c (by simp))
  rw [List.cons_append]
  simp only [parseSign, if_neg hc.2.1, if_neg hc.2.2.1]

theorem parseFloat_print_core (neg : Bool) (l1 : List Char) (hne : l1 ≠ [])
    (hdig : ∀ c ∈ l1, isDigitB c = true) (d : ℕ) :
    parseFloat ((if neg then ['-'] else []) ++ l1 ++ 'e' :: '-' :: natToDigits d) =
      some (applySign neg ((digitsToNat l1 : ℚ) * (10 : ℚ) ^ (-(d : ℤ)))) := by
  have hspace : ∀ c ∈ (if neg then ['-'] else []) ++ l1 ++ 'e' :: '-' :: natToDigits d,
      pyIsSpace c = false := by
    intro c hc
    rcases List.mem_append.mp hc with h | h
    · cases neg
      · simp at h
        exact printable_no_space (Or.inl (hdig c h))
      · simp at h
        rcases h with h | h
        · subst h; decide
        · exact printable_no_space (Or.inl (hdig c h))
    · rcases List.mem_cons.mp h with h2 | h2
      · subst h2; decide
      · rcases List.mem_cons.mp h2 with h3 | h3
        · subst h3; decide
        · exact printable_no_space (Or.inl (natToDigits_digits d c h3))
  have hE : isDigitB 'e' = false := by decide
  have hemp : l1.isEmpty = false := List.isEmpty_eq_false.mpr hne
  have hempd : (natToDigits d).isEmpty = false :=
    List.isEmpty_eq_false.mpr (natToDigits_ne_nil d)
  have heE : ((('e' : Char) == 'e') || (('e' : Char) == 'E')) = true := rfl
  simp only [parseFloat]
  rw [pyStrip_of_no_space hspace]
  cases neg
  · simp only [if_neg (Bool.false_ne_true), List.nil_append]
    simp only [parseSign_digits hne hdig, takeWhile_append_stop hdig hE,
      dropWhile_append_stop hdig hE, hemp, Bool.false_and, parseSign_neg,
      takeWhile_of_all (natToDigits_digits d), dropWhile_of_all (natToDigits_digits d),
      hempd, digitsToNat_natToDigits, List.append_nil, List.length_nil, pow_zero, div_one,
      List.isEmpty_nil, Bool.not_true, Bool.or_false, Bool.false_or, heE]
    rw [if_neg (show ¬(('e' : Char) = '.') by decide)]
    simp only [parseSign_neg, takeWhile_of_all (natToDigits_digits d),
      dropWhile_of_all (natToDigits_digits d), hempd, digitsToNat_natToDigits,
      List.append_nil, List.length_nil, pow_zero, div_one, List.isEmpty_nil,
      Bool.not_true, Bool.or_false, Bool.false_or, heE]
    simp
  · simp only [if_true, List.singleton_append, List.cons_append]
    simp only [List.nil_append, parseSign_neg, takeWhile_append_stop hdig hE,
      dropWhile_append_stop hdig hE, hemp, Bool.false_and,
      takeWhile_of_all (natToDigits_digits d), dropWhile_of_all (natToDigits_digits d),
      hempd, digitsToNat_natToDigits, List.append_nil, List.length_nil, pow_zero, div_one,
      List.isEmpty_nil, Bool.not_true, Bool.or_false, Bool.false_or, heE]
    rw [if_neg (show ¬(('e' : Char) = '.') by decide)]
    simp [parseSign_neg, takeWhile_of_all (natToDigits_digits d),
      dropWhile_of_all (natToDigits_digits d), digitsToNat_natToDigits, hempd,
      natToDigits_ne_nil]

theorem parseFloat_intToChars_exp (M : ℤ) (d : ℕ) :
    parseFloat (intToChars M ++ 'e' :: '-' :: natToDigits d) =
      some ((M : ℚ) * (10 : ℚ) ^ (-(d : ℤ))) := by
  rcases lt_or_le M 0 with hM | hM
  · have h1 : intToChars M = '-' :: natToDigits M.natAbs := by
      rw [intToChars, if_pos hM]
    have hcore := parseFloat_print_core true (natToDigits M.natAbs)
      (natToDigits_ne_nil _) (natToDigits_digits _) d
    simp only [if_true, List.singleton_append, List.cons_append, List.nil_append,
      digitsToNat_natToDigits] at hcore
    rw [h1, List.cons_append, hcore]
    congr 1
    rw [applySign]
    simp only [if_true]
    have habs : ((M.natAbs : ℕ) : ℚ) = -(M : ℚ) := by
      rw [Int.cast_natAbs, abs_of_neg hM]
      push_cast
      ring
    rw [habs]
    ring
  · have h1 : intToChars M = natToDigits M.natAbs := by
      rw [intToChars, if_neg (not_lt.mpr hM)]
    have hcore := parseFloat_print_core false (natToDigits M.natAbs)
      (natToDigits_ne_nil _) (natToDigits_digits _) d
    simp only [Bool.false_eq_true, if_false, List.nil_append,
      digitsToNat_natToDigits] at hcore
    rw [h1, hcore]
    congr 1
    rw [applySign]
    simp only [Bool.false_eq_true, if_false]
    have habs : ((M.natAbs : ℕ) : ℚ) = (M : ℚ) := by
      rw [Int.cast_natAbs, abs_of_nonneg (by exact_mod_cast hM)]
    rw [habs]

/-- Round-trip of one printed value, for any rational whose denominator
divides `10 ^ den` (every value the parser produces has this form). -/
theorem printRat_parse (v : ℚ) (hden : ((v.den : ℤ)) ∣ (10 : ℤ) ^ (v.den : ℕ)) :
    parseFloat (printRat v) = some v := by
  rw [printRat, parseFloat_intToChars_exp]
  congr 1
  have hcden : ((10 : ℤ) ^ (v.den : ℕ) / (v.den : ℤ)) * (v.den : ℤ) = 10 ^ (v.den : ℕ) :=
    Int.ediv_mul_cancel hden
  have hd0 : ((v.den : ℕ) : ℚ) ≠ 0 := by
    exact_mod_cast v.den_nz
  have hcast : (((10 : ℤ) ^ (v.den : ℕ) / (v.den : ℤ) : ℤ) : ℚ) * ((v.den : ℕ) : ℚ) =
      (10 : ℚ) ^ (v.den : ℕ) := by
    exact_mod_cast congrArg (fun z : ℤ => (z : ℚ)) hcden
  have h10 : ((10 : ℚ) ^ (v.den : ℕ)) ≠ 0 := by positivity
  have h2 : (v.num : ℚ) / ((v.den : ℕ) : ℚ) * ((v.den : ℕ) : ℚ) = (v.num : ℚ) :=
    div_mul_cancel₀ _ hd0
  rw [Rat.num_div_den v] at h2
  rw [zpow_neg, zpow_natCast, ← div_eq_mul_inv, div_eq_iff h10, ← hcast]
  push_cast
  rw [← h2]
  ring

/-! ## Lemmas: the parser only produces decimal denominators -/

/-- A divisor of some power of 10 already divides `10 ^ itself`. -/
theorem dvd_ten_pow_self {a k : ℕ} (ha : a ≠ 0) (h : a ∣ 10 ^ k) : a ∣ 10 ^ a := by
  have h10 : (10 : ℕ) ≠ 0 := by norm_num
  rw [← Nat.factorization_le_iff_dvd ha (pow_ne_zero a h10)]
  rw [Finsupp.le_def]
  intro p
  rw [Nat.factorization_pow]
  simp only [Finsupp.smul_apply, smul_eq_mul]
  by_cases hp : a.factorization p = 0
  · simp [hp]
  · have hmem : p ∈ a.factorization.support := Finsupp.mem_support_iff.mpr hp
    rw [Nat.support_factorization] at hmem
    have hppr : p.Prime := Nat.prime_of_mem_primeFactors hmem
    have hpd : p ∣ a := Nat.dvd_of_mem_primeFactors hmem
    have hp10 : p ∣ 10 := hppr.dvd_of_dvd_pow (hpd.trans h)
    have hpos : 0 < (10 : ℕ).factorization p :=
      hppr.factorization_pos_of_dvd h10 hp10
    have hlt : a.factorization p < a := Nat.factorization_lt p ha
    calc a.factorization p ≤ a * 1 := by omega
      _ ≤ a * (10 : ℕ).factorization p := Nat.mul_le_mul_left a hpos

theorem den_dvd_of_div_pow (c : ℤ) (k : ℕ) :
    (((c : ℚ) / (10 : ℚ) ^ k).den : ℕ) ∣ 10 ^ k := by
  have h := Rat.den_dvd c ((10 : ℤ) ^ k)
  rw [Rat.divInt_eq_div] at h
  have hcast : (((10 : ℤ) ^ k : ℤ) : ℚ) = (10 : ℚ) ^ k := by push_cast; ring
  rw [hcast] at h
  exact_mod_cast h

theorem den_applySign (neg : Bool) (q : ℚ) : (applySign neg q).den = q.den := by
  cases neg
  · rfl
  · exact Rat.neg_den q

/-- Every value `parseFloat` can return has a denominator dividing a
power of 10. -/
theorem parseFloat_den_pow (raw : List Char) (q : ℚ) (h : parseFloat raw = some q) :
    ∃ k, (q.den : ℕ) ∣ 10 ^ k := by
  have hform : (∃ (neg : Bool) (a f : ℕ), q = applySign neg ((a : ℚ) / 10 ^ f)) ∨
      (∃ (neg : Bool) (a f : ℕ) (E : ℤ),
        q = applySign neg ((a : ℚ) / 10 ^ f * (10 : ℚ) ^ E)) := by
    simp only [parseFloat] at h
    split at h
    · exact absurd h (by simp)
    · split at h
      · rw [Option.some.injEq] at h
        exact Or.inl ⟨_, _, _, h.symm⟩
      · split at h
        · split at h
          · exact absurd h (by simp)
          · rw [Option.some.injEq] at h
            exact Or.inr ⟨_, _, _, _, h.symm⟩
        · exact absurd h (by simp)
  rcases hform with ⟨neg, a, f, rfl⟩ | ⟨neg, a, f, E, rfl⟩
  · refine ⟨f, ?_⟩
    rw [den_applySign]
    have hdd := den_dvd_of_div_pow (a : ℤ) f
    push_cast at hdd
    exact hdd
  · rw [den_applySign]
    rcases E with n | n
    · refine ⟨f, ?_⟩
      have hx : (a : ℚ) / 10 ^ f * (10 : ℚ) ^ (Int.ofNat n) =
          ((a * 10 ^ n : ℤ) : ℚ) / (10 : ℚ) ^ f := by
        rw [show (Int.ofNat n) = (n : ℤ) from rfl, zpow_natCast]
        push_cast
        ring
      rw [hx]
      exact den_dvd_of_div_pow _ f
    · refine ⟨f + (n + 1), ?_⟩
      have hx : (a : ℚ) / 10 ^ f * (10 : ℚ) ^ (Int.negSucc n) =
          ((a : ℤ) : ℚ) / (10 : ℚ) ^ (f + (n + 1)) := by
        rw [zpow_negSucc]
        push_cast
        rw [pow_add]
        field_simp
        left
        ring
      rw [hx]
      exact den_dvd_of_div_pow _ _

theorem parseFloat_den_self (raw : List Char) (q : ℚ) (h : parseFloat raw = some q) :
    ((q.den : ℤ)) ∣ (10 : ℤ) ^ (q.den : ℕ) := by
  obtain ⟨k, hk⟩ := parseFloat_den_pow raw q h
  have := dvd_ten_pow_self (q.den_nz) hk
  exact_mod_cast this

/-! ## Lemmas: optMapM -/

theorem optMapM_mem {α β : Type} {f : α → Option β} :
    ∀ {xs : List α} {ys : List β}, optMapM f xs = some ys →
      ∀ y ∈ ys, ∃ x, f x = some y := by
  intro xs
  induction xs with
  | nil =>
    intro ys h y hy
    rw [optMapM, Option.some.injEq] at h
    rw [← h] at hy
    cases hy
  | cons x xs ih =>
    intro ys h y hy
    rw [optMapM] at h
    split at h
    · cases h
    · split at h
      · cases h
      · rw [Option.some.injEq] at h
        rw [← h] at hy
        rcases List.mem_cons.mp hy with h1 | h1
        · subst h1
          exact ⟨x, by assumption⟩
        · exact ih (by assumption) y h1

theorem optMapM_map_roundtrip {f : List Char → Option ℚ} {g : ℚ → List Char} :
    ∀ {vs : List ℚ}, (∀ v ∈ vs, f (g v) = some v) →
      optMapM f (vs.map g) = some vs := by
  intro vs
  induction vs with
  | nil => intro _; rfl
  | cons v vs ih =>
    intro h
    rw [List.map_cons, optMapM, h v (by simp), ih (fun w hw => h w (by simp [hw]))]

/-! ## C4: parse / serialize round-trip -/

/-- Serialize-then-parse recovers any list of values whose denominators
divide the matching power of 10. -/
theorem roundtrip_of_den (vs : List ℚ)
    (hd : ∀ v ∈ vs, ((v.den : ℤ)) ∣ (10 : ℤ) ^ (v.den : ℕ)) :
    parseLineVals (serializeVals vs) = some vs := by
  cases hvs : vs with
  | nil => rfl
  | cons v0 rest =>
    rw [← hvs]
    have hvne : vs ≠ [] := by rw [hvs]; simp
    have hparse : ∀ v ∈ vs, parseFloat (printRat v) = some v := by
      intro v hv'
      exact printRat_parse v (hd v hv')
    have hfne : vs.map printRat ≠ [] := by simpa using hvne
    have hnobar : ∀ f ∈ vs.map printRat, '|' ∉ f := by
      intro f hf hc
      obtain ⟨v, _, rfl⟩ := List.mem_map.mp hf
      exact printable_ne_bar (printRat_chars _ hc) rfl
    simp only [parseLineVals, serializeVals]
    rw [splitOnChar_joinSep hfne hnobar]
    have hkeep : (vs.map printRat).filter (fun f => !(pyStrip f).isEmpty) = vs.map printRat := by
      rw [List.filter_eq_self]
      intro f hf
      obtain ⟨v, _, rfl⟩ := List.mem_map.mp hf
      rw [pyStrip_of_no_space (fun c hc => printable_no_space (printRat_chars c hc))]
      simp [List.isEmpty_eq_false.mpr (printRat_ne_nil v)]
    rw [hkeep]
    exact optMapM_map_roundtrip hparse

/-- C4: for a well-formed 9-field line, re-serializing the nine parsed
values `|`-joined and re-parsing returns exactly the same values. -/
theorem claim_c4 (l : List Char) (vs : List ℚ) (h : parseLineVals l = some vs)
    (hlen : vs.length = 9) :
    parseLineVals (serializeVals vs) = some vs := by
  have hv : ∀ v ∈ vs, ∃ raw, parseFloat raw = some v := by
    simp only [parseLineVals] at h
    exact optMapM_mem h
  refine roundtrip_of_den vs (fun v hv' => ?_)
  obtain ⟨raw, hr⟩ := hv v hv'
  exact parseFloat_den_self raw v hr

theorem claim_c4_witness :
    parseLineVals (serializeVals [1, 2, 3, 4, 5, 6, 7, 8, 9]) =
      some [1, 2, 3, 4, 5, 6, 7, 8, 9] ∧
    ([1, 2, 3, 4, 5, 6, 7, 8, 9] : List ℚ).length = 9 :=
  ⟨claim_c4 (serializeVals [1, 2, 3, 4, 5, 6, 7, 8, 9]) [1, 2, 3, 4, 5, 6, 7, 8, 9]
      (roundtrip_of_den [1, 2, 3, 4, 5, 6, 7, 8, 9] (by decide)) rfl,
    rfl⟩

end XP
